import Mathlib

/-!
Shallow embedding of the `amuseing` music player (Rust) for specification
checking.  The queue model follows `src/queue.rs`, the volume model follows
`AtomicVolume` in `src/playback.rs`, the seek facade follows
`Player::seek_duration` in `src/playback.rs`, and the audio-callback model
follows `write_audio` and the refill loop of `create_stream` in
`src/playback.rs`.

Rust `usize` values are modelled as `Nat`; operations that can panic in Rust
(`Vec::remove`/`Vec::insert` out of range, `usize` subtraction underflow,
`expect` on an error) are modelled with `Option`, `none` standing for a panic.
-/

/-- Repeat mode of a queue, from `RepeatMode` in `src/queue.rs`. -/
inductive RepeatMode where
  | off
  | single
  | all
deriving DecidableEq

/-- The queue of `src/queue.rs`: an item list, a cursor, a repeat mode and the
`has_advanced` flag used for iteration after repositioning. -/
structure Queue (T : Type) where
  items : List T
  index : Nat
  repeat_mode : RepeatMode
  has_advanced : Bool
deriving DecidableEq

/-- `Queue::new` from `src/queue.rs`. -/
def Queue.new (T : Type) (rm : RepeatMode) : Queue T :=
  { items := [], index := 0, repeat_mode := rm, has_advanced := false }

/-- `Queue::next_item` from `src/queue.rs`, returning the updated queue
together with the returned item.  Mirrors the source line by line: early
return on an empty queue, conditional increment, conditional wrap by `%`,
then `has_advanced = true` and a checked `get`. -/
def Queue.next_item {T : Type} (q : Queue T) : Queue T × Option T :=
  if q.items.isEmpty then (q, none)
  else
    let i1 :=
      if q.repeat_mode ≠ RepeatMode.single ∧ q.has_advanced ∧
          q.index < q.items.length
      then q.index + 1 else q.index
    let i2 := if q.repeat_mode ≠ RepeatMode.off then i1 % q.items.length else i1
    ({ q with index := i2, has_advanced := true }, q.items[i2]?)

/-- `Queue::current` from `src/queue.rs`: `self.items.get(self.index)`. -/
def Queue.current {T : Type} (q : Queue T) : Option T :=
  q.items[q.index]?

/-- `Queue::push` from `src/queue.rs`. -/
def Queue.push {T : Type} (q : Queue T) (item : T) : Queue T :=
  { q with items := q.items ++ [item] }

/-- `Queue::clear` from `src/queue.rs`. -/
def Queue.clear {T : Type} (q : Queue T) : Queue T :=
  { q with items := [], index := 0, has_advanced := false }

/-- `Extend::extend` for `Queue` from `src/queue.rs`. -/
def Queue.extend {T : Type} (q : Queue T) (iter : List T) : Queue T :=
  { q with items := q.items ++ iter }

/-- `Queue::remove` from `src/queue.rs`.  `Vec::remove` panics when the
argument index is out of range; that case is `none`. -/
def Queue.remove {T : Type} (q : Queue T) (index : Nat) : Option (Queue T) :=
  if index < q.items.length then
    some { q with
            items := q.items.eraseIdx index,
            index := if index < q.index then q.index - 1 else q.index }
  else none

/-- `Queue::insert` from `src/queue.rs`.  `Vec::insert` panics when the
argument index exceeds the length; that case is `none`. -/
def Queue.insert {T : Type} (q : Queue T) (index : Nat) (item : T) :
    Option (Queue T) :=
  if index ≤ q.items.length then
    some { q with
            items := q.items.insertIdx index item,
            index := if index ≤ q.index then q.index + 1 else q.index }
  else none

/-- The error type of `Queue::jump`.  The enum lives in the `errors`
module (not shipped with the sources); the `High` variant with its `value`
and `max` payload is taken from its construction site in `src/queue.rs`. -/
inductive OutOfBoundsError where
  | high (value : Nat) (max : Nat)
deriving DecidableEq

/-- `Queue::jump` from `src/queue.rs`, returning the updated queue and the
error, if any.  On the error path the source returns before mutating. -/
def Queue.jump {T : Type} (q : Queue T) (new_index : Nat) :
    Queue T × Option OutOfBoundsError :=
  if new_index > q.items.length then
    (q, some (OutOfBoundsError.high new_index q.items.length))
  else
    ({ q with index := new_index, has_advanced := false }, none)

/-- `Queue::skip` from `src/queue.rs`: add one to `n` when `has_advanced`,
compute the target (0 on empty, clamped to `len` for `Off`, wrapped
otherwise) and `jump` there.  The internal `jump` never fails (proved in
`skip_spec_and_additive`), so the `expect` cannot panic and `skip` is total. -/
def Queue.skip {T : Type} (q : Queue T) (n : Nat) : Queue T :=
  let m := if q.has_advanced then n + 1 else n
  let new_index :=
    if q.items.isEmpty then 0
    else if q.repeat_mode = RepeatMode.off then
      min (q.index + m) q.items.length
    else (q.index + m) % q.items.length
  (Queue.jump q new_index).1

/-- `Queue::rewind` from `src/queue.rs`.  The source computes
`len - (n - index)` with `usize` subtraction, which panics when
`n - index > len`; the subsequent `jump(new_index).expect(..)` panics when
`new_index > len`.  Both panic paths are `none`. -/
def Queue.rewind {T : Type} (q : Queue T) (n : Nat) : Option (Queue T) :=
  let new_index? : Option Nat :=
    if q.items.isEmpty then some 0
    else if n ≤ q.index then some (q.index - n)
    else if n - q.index ≤ q.items.length then
      some (q.items.length - (n - q.index))
    else none
  match new_index? with
  | none => none
  | some ni =>
    match Queue.jump q ni with
    | (q2, none) => some q2
    | (_, some _) => none

/-- Repeated application of `next_item`, discarding the outputs; used to
state the iteration claims. -/
def Queue.iterate {T : Type} (q : Queue T) : Nat → Queue T
  | 0 => q
  | n + 1 => (Queue.iterate q n).next_item.1

/-- The index computed by `Queue::skip` before the internal `jump`. -/
def Queue.skipTarget {T : Type} (q : Queue T) (n : Nat) : Nat :=
  let m := if q.has_advanced then n + 1 else n
  if q.items.isEmpty then 0
  else if q.repeat_mode = RepeatMode.off then
    min (q.index + m) q.items.length
  else (q.index + m) % q.items.length

/-- The volume pair of `AtomicVolume` in `src/playback.rs`: the stored
percentage and the derived sample multiplier.  The two `f64` fields are
modelled as real numbers, so this is the ideal-arithmetic reading of the
floating-point source. -/
structure AtomicVolume where
  percent : ℝ
  multiplier : ℝ

/-- `AtomicVolume::from_percent` from `src/playback.rs`.  The source asserts
`0 ≤ percent ≤ 1` (panicking otherwise); the theorems below only evaluate the
model inside that range.  For `percent` equal to 0 or 1 the multiplier is the
percentage itself; otherwise it is `10^(ar/20)` with `ar` interpolated
between -60 and 0 decibels. -/
noncomputable def AtomicVolume.from_percent (percent : ℝ) : AtomicVolume :=
  { percent := percent
    multiplier :=
      if percent = 0 ∨ percent = 1 then percent
      else
        let MIN_AR : ℝ := -60
        let MAX_AR : ℝ := 0
        let ar_interpolated := MIN_AR + (MAX_AR - MIN_AR) * percent
        (10 : ℝ) ^ (ar_interpolated / 20) }

/-- A song as used by `Player::seek_duration`: the fields of `Song` in
`src/playback.rs`, with the duration in integral units (the source compares
`std::time::Duration` values, a total order). -/
structure Song where
  id : Nat
  title : String
  path : String
  duration : Nat
deriving DecidableEq

/-- The command messages of `PlayerMessage` in `src/playback.rs`. -/
inductive PlayerMessage where
  | stop
  | seek (duration : Nat)
  | quit
deriving DecidableEq

/-- The error type of `Player::seek_duration`; the enum shape is the
`SeekError` of `src/player.rs` (the `errors` module itself is not shipped),
whose `out_of_range` constructor is applied in `src/playback.rs`. -/
inductive SeekError where
  | outOfRange (value : Nat) (max : Nat)
  | noCurrentSong
deriving DecidableEq

/-- The parts of `Player` (from `src/playback.rs`) that `seek_duration`
touches: the queue of songs and whether the command sender exists
(`sender: Option<mpsc::Sender<..>>` is `Some` once `run` was called). -/
structure Player where
  queue : Queue Song
  sender : Bool
deriving DecidableEq

/-- `Player::current` from `src/playback.rs`:
`self.queue.lock().unwrap().current().cloned()`. -/
def Player.current (p : Player) : Option Song :=
  Queue.current p.queue

/-- `Player::send_message` from `src/playback.rs`: returns false when there
is no sender, otherwise sends the message.  The model takes the channel to be
open (`tx.send` only fails when the decoder thread is gone), and records the
messages that were sent. -/
def Player.send_message (p : Player) (message : PlayerMessage) :
    Bool × List PlayerMessage :=
  if p.sender then (true, [message]) else (false, [])

/-- `Player::seek_duration` from `src/playback.rs`, with the resulting
player state passed through explicitly (the source takes `&mut self` but
never writes).  Returns the new state, the `Result`, and the messages sent
on the command channel. -/
def Player.seek_duration (p : Player) (duration : Nat) :
    Player × Except SeekError Bool × List PlayerMessage :=
  match Player.current p with
  | none => (p, Except.error SeekError.noCurrentSong, [])
  | some song =>
    if duration > song.duration then
      (p, Except.error (SeekError.outOfRange duration song.duration), [])
    else
      let sent := Player.send_message p (PlayerMessage.seek duration)
      (p, Except.ok sent.1, sent.2)

/-- State of the audio-callback refill loop of `create_stream` in
`src/playback.rs`: the two per-channel accumulators `samples_in`, the local
`sample_deque`, and the ring-buffer content seen by the consumer.  Samples
are modelled as rationals. -/
structure CallbackBuf where
  samplesL : List ℚ
  samplesR : List ℚ
  deque : List ℚ
  ring : List (ℚ × ℚ)
deriving DecidableEq

/-- One iteration of the `while sample_deque.len() < data.len()` loop of the
callback in `create_stream` (`src/playback.rs`), in the `bypass_resampler`
branch: take up to `data.len()` frames from the ring, append to the
accumulators, move everything (`consumed = output = samples_in[0].len()`)
into the deque as interleaved stereo samples. -/
def refillStepBypass (dataLen : Nat) (s : CallbackBuf) : CallbackBuf :=
  let samples_needed := dataLen
  let popped := s.ring.take samples_needed
  let inL := s.samplesL ++ popped.map Prod.fst
  let inR := s.samplesR ++ popped.map Prod.snd
  let consumed := inL.length
  let output := inL.length
  let deque2 := s.deque ++
    ((inL.take output).zip (inR.take output)).flatMap (fun pr => [pr.1, pr.2])
  { samplesL := inL.drop consumed
    samplesR := inR.drop consumed
    deque := deque2
    ring := s.ring.drop samples_needed }

/-- Recursion underlying `write_audio`: one step per chunk of `k + 1` device
samples, popping at most one deque sample per chunk. -/
def writeAudioGo {T : Type} (conv : ℚ → T) (eqm : T) (k : Nat) (vol : ℚ) :
    List T → List ℚ → List T × List ℚ
  | [], samples => ([], samples)
  | d :: ds, [] =>
    let rest := writeAudioGo conv eqm k vol (ds.drop k) []
    (List.replicate (d :: ds.take k).length eqm ++ rest.1, rest.2)
  | d :: ds, s :: ss =>
    let rest := writeAudioGo conv eqm k vol (ds.drop k) ss
    (List.replicate (d :: ds.take k).length (conv (s * vol)) ++ rest.1, rest.2)
termination_by data _ => data.length
decreasing_by
  all_goals simp [List.length_drop]
  all_goals omega

/-- `write_audio` from `src/playback.rs`: walk the output buffer in chunks of
`channel_factor` samples; for each chunk pop one sample from the deque, scale
it by the volume multiplier and convert it (`conv` stands for `to_sample`),
or use the device silence `eqm` (`T::EQUILIBRIUM`) when the deque is empty;
write that value to every element of the chunk.  Returns the written buffer
and the remaining deque.  `chunks_mut` panics when `channel_factor` is 0, so
the model is stated for chunk size `channel_factor - 1 + 1`, which agrees
with the source whenever `channel_factor ≥ 1`. -/
def write_audio {T : Type} (conv : ℚ → T) (eqm : T) (channel_factor : Nat)
    (vol : ℚ) (data : List T) (samples : List ℚ) : List T × List ℚ :=
  writeAudioGo conv eqm (channel_factor - 1) vol data samples

/-! Helper lemmas about the queue operations. -/

lemma queue_not_empty_length_pos {T : Type} {l : List T} (h : l ≠ []) :
    0 < l.length := List.length_pos.mpr h

lemma Queue.skipTarget_le {T : Type} (q : Queue T) (n : Nat) :
    Queue.skipTarget q n ≤ q.items.length := by
  unfold Queue.skipTarget
  by_cases he : q.items.isEmpty
  · simp [he]
  · by_cases ho : q.repeat_mode = RepeatMode.off
    · simp [he, ho]
    · have hlen : 0 < q.items.length := by
        simp only [List.isEmpty_iff] at he
        exact queue_not_empty_length_pos he
      simp only [he, ho, if_false]
      exact Nat.le_of_lt (Nat.mod_lt _ hlen)

lemma Queue.jump_state {T : Type} (q : Queue T) (n : Nat)
    (h : n ≤ q.items.length) :
    Queue.jump q n = ({ q with index := n, has_advanced := false }, none) := by
  unfold Queue.jump
  simp [Nat.not_lt.mpr h]

lemma Queue.skip_eq {T : Type} (q : Queue T) (n : Nat) :
    Queue.skip q n =
      { q with index := Queue.skipTarget q n, has_advanced := false } := by
  have h := Queue.skipTarget_le q n
  show (Queue.jump q (Queue.skipTarget q n)).1 = _
  rw [Queue.jump_state q _ h]

lemma Queue.off_iterate_state {T : Type} (items : List T) (h : items ≠ [])
    (k : Nat) :
    Queue.iterate (⟨items, 0, RepeatMode.off, false⟩ : Queue T) (k + 1) =
      ⟨items, min k items.length, RepeatMode.off, true⟩ := by
  have hlen : 0 < items.length := queue_not_empty_length_pos h
  induction k with
  | zero =>
    simp [Queue.iterate, Queue.next_item, List.isEmpty_iff, h]
  | succ k ih =>
    rw [Queue.iterate, ih]
    by_cases hk : k < items.length
    · have h1 : min k items.length = k := by omega
      have h2 : min (k + 1) items.length = k + 1 := by omega
      simp [Queue.next_item, List.isEmpty_iff, h, h1, h2, hk]
    · have h1 : min k items.length = items.length := by omega
      have h2 : min (k + 1) items.length = items.length := by omega
      simp [Queue.next_item, List.isEmpty_iff, h, h1, h2, hk]

lemma Queue.off_iterate_out {T : Type} (items : List T) (h : items ≠ [])
    (k : Nat) :
    (Queue.iterate (⟨items, 0, RepeatMode.off, false⟩ : Queue T) k).next_item.2
      = items[min k items.length]? := by
  have hlen : 0 < items.length := queue_not_empty_length_pos h
  cases k with
  | zero =>
    simp [Queue.iterate, Queue.next_item, List.isEmpty_iff, h]
  | succ k =>
    rw [Queue.off_iterate_state items h k]
    by_cases hk : k < items.length
    · have h1 : min k items.length = k := by omega
      have h2 : min (k + 1) items.length = k + 1 := by omega
      simp [Queue.next_item, List.isEmpty_iff, h, h1, h2, hk]
    · have h1 : min k items.length = items.length := by omega
      have h2 : min (k + 1) items.length = items.length := by omega
      simp [Queue.next_item, List.isEmpty_iff, h, h1, h2, hk]

lemma getElem?_eraseIdx_of_lt {α : Type} (l : List α) (i j : Nat)
    (hij : i < j) (hi : i < l.length) :
    (l.eraseIdx i)[j - 1]? = l[j]? := by
  rw [List.eraseIdx_eq_take_drop_succ]
  have ht : (l.take i).length = i := by
    simp [List.length_take]
    omega
  rw [List.getElem?_append_right (by omega : (l.take i).length ≤ j - 1)]
  rw [List.getElem?_drop]
  congr 1
  omega

lemma getElem?_insertIdx_succ {α : Type} (l : List α) (i j : Nat) (x : α)
    (hij : i ≤ j) (hi : i ≤ l.length) :
    (l.insertIdx i x)[j + 1]? = l[j]? := by
  induction i generalizing l j with
  | zero =>
    rw [List.insertIdx_zero]
    exact List.getElem?_cons_succ
  | succ i ih =>
    cases l with
    | nil => simp at hi
    | cons hd tl =>
      cases j with
      | zero => omega
      | succ j =>
        rw [List.insertIdx_succ_cons]
        rw [List.getElem?_cons_succ, List.getElem?_cons_succ]
        exact ih tl j (by omega) (by simpa using hi)

lemma Queue.rewind_eq {T : Type} (q : Queue T) (n : Nat) :
    Queue.rewind q n =
      if q.items.isEmpty then
        some { q with index := 0, has_advanced := false }
      else if n ≤ q.index then
        if q.index - n ≤ q.items.length then
          some { q with index := q.index - n, has_advanced := false }
        else none
      else if n - q.index ≤ q.items.length then
        some { q with
            index := q.items.length - (n - q.index),
            has_advanced := false }
      else none := by
  unfold Queue.rewind
  by_cases he : q.items.isEmpty
  · simp [he, Queue.jump_state q 0 (Nat.zero_le _)]
  · by_cases h1 : n ≤ q.index
    · by_cases h2 : q.index - n ≤ q.items.length
      · simp [he, h1, h2, Queue.jump_state q _ h2]
      · have hgt : q.items.length < q.index - n := by omega
        simp [he, h1, h2, Queue.jump, hgt]
    · by_cases h3 : n - q.index ≤ q.items.length
      · simp [he, h1, h3,
          Queue.jump_state q (q.items.length - (n - q.index)) (Nat.sub_le _ _)]
      · simp [he, h1, h3]

lemma Queue.next_item_index_le {T : Type} (q : Queue T)
    (h : q.index ≤ q.items.length) :
    (Queue.next_item q).1.index ≤ (Queue.next_item q).1.items.length := by
  unfold Queue.next_item
  by_cases he : q.items.isEmpty
  · simp [he, h]
  · have hlen : 0 < q.items.length := by
      simp only [List.isEmpty_iff] at he
      exact queue_not_empty_length_pos he
    by_cases ho : q.repeat_mode = RepeatMode.off
    · simp [he, ho]
      split_ifs with hcond
      · exact hcond.2
      · exact h
    · simp [he, ho]
      exact Nat.le_of_lt (Nat.mod_lt _ hlen)

lemma Queue.next_item_out {T : Type} (q : Queue T) :
    (Queue.next_item q).2 =
      (Queue.next_item q).1.items[(Queue.next_item q).1.index]? := by
  unfold Queue.next_item
  by_cases he : q.items.isEmpty
  · simp only [List.isEmpty_iff] at he
    simp [he]
  · simp [he]

lemma Queue.remove_index_le {T : Type} (q : Queue T) (i : Nat)
    (hq : q.index ≤ q.items.length) (q2 : Queue T)
    (h : Queue.remove q i = some q2) : q2.index ≤ q2.items.length := by
  unfold Queue.remove at h
  by_cases hi : i < q.items.length
  · simp only [hi, if_true, Option.some.injEq] at h
    rw [← h]
    simp only [List.length_eraseIdx, hi, if_true]
    split_ifs with hlt
    · omega
    · omega
  · simp [hi] at h

lemma Queue.insert_index_le {T : Type} (q : Queue T) (i : Nat) (x : T)
    (hq : q.index ≤ q.items.length) (q2 : Queue T)
    (h : Queue.insert q i x = some q2) : q2.index ≤ q2.items.length := by
  unfold Queue.insert at h
  by_cases hi : i ≤ q.items.length
  · simp only [hi, if_true, Option.some.injEq] at h
    rw [← h]
    simp only [List.length_insertIdx i q.items hi]
    split_ifs with hle
    · omega
    · omega
  · simp [hi] at h

lemma Queue.rewind_index_le {T : Type} (q : Queue T) (n : Nat) (q2 : Queue T)
    (h : Queue.rewind q n = some q2) : q2.index ≤ q2.items.length := by
  rw [Queue.rewind_eq] at h
  split_ifs at h with h1 h2 h3 h4
  · cases h
    exact Nat.zero_le _
  · cases h
    exact h3
  · cases h
    exact Nat.sub_le _ _

lemma Queue.skipTarget_additive {T : Type} (q : Queue T) (a b : Nat) :
    Queue.skipTarget
        { q with index := Queue.skipTarget q a, has_advanced := false } b
      = Queue.skipTarget q (a + b) := by
  unfold Queue.skipTarget
  by_cases he : q.items.isEmpty
  · simp [he]
  · have hlen : 0 < q.items.length := by
      simp only [List.isEmpty_iff] at he
      exact queue_not_empty_length_pos he
    by_cases ho : q.repeat_mode = RepeatMode.off
    · cases hadv : q.has_advanced <;> simp [he, ho, hadv] <;> omega
    · cases hadv : q.has_advanced
      · simp [he, ho, hadv, Nat.mod_add_mod, Nat.add_assoc]
      · simp [he, ho, hadv, Nat.mod_add_mod]
        congr 1
        omega

lemma writeAudioGo_nil {T : Type} (conv : ℚ → T) (eqm : T) (k : Nat)
    (vol : ℚ) (data : List T) :
    writeAudioGo conv eqm k vol data [] =
      (List.replicate data.length eqm, []) := by
  have H : ∀ (m : Nat) (data : List T), data.length ≤ m →
      writeAudioGo conv eqm k vol data [] =
        (List.replicate data.length eqm, []) := by
    intro m
    induction m with
    | zero =>
      intro data hd
      have hdata : data = [] := List.length_eq_zero.mp (by omega)
      subst hdata
      simp [writeAudioGo]
    | succ m ih =>
      intro data hd
      cases data with
      | nil => simp [writeAudioGo]
      | cons d ds =>
        simp only [writeAudioGo]
        rw [ih (ds.drop k)
          (by
            simp only [List.length_cons] at hd
            simp only [List.length_drop]
            omega)]
        have hlen : (d :: ds.take k).length + (ds.drop k).length
            = ds.length + 1 := by
          simp [List.length_take, List.length_drop]
          omega
        rw [← List.replicate_add, hlen]
        simp
  exact H data.length data le_rfl

/-! Claim theorems. -/

/-- C1 counterexample: on a non-empty queue in `Single` mode whose index
equals the length (reachable via `jump(len)`), `next_item` does not return
`None` with the cursor unchanged; the `index %= len` step wraps the cursor
to 0 and the first item is returned. -/
theorem next_item_single_wraps_at_len :
    (Queue.next_item
        (⟨[10, 20, 30], 3, RepeatMode.single, false⟩ : Queue Nat)).2
      = some 10 ∧
    (Queue.next_item
        (⟨[10, 20, 30], 3, RepeatMode.single, false⟩ : Queue Nat)).1.index
      = 0 := by
  decide

/-- C1 (amended): in `Single` mode `next_item` returns `None` on an empty
queue; on a non-empty queue it reduces the index modulo `len` and returns
the item there, which for every in-bounds index means the item at the
current index with the cursor unchanged (the `index = len` state instead
wraps to the first item). -/
theorem next_item_single_spec (T : Type) (q : Queue T)
    (hm : q.repeat_mode = RepeatMode.single) :
    (q.items = [] → Queue.next_item q = (q, none)) ∧
    (q.items ≠ [] →
      Queue.next_item q =
        ({ q with index := q.index % q.items.length, has_advanced := true },
          q.items[q.index % q.items.length]?)) ∧
    (q.items ≠ [] → q.index < q.items.length →
      (Queue.next_item q).1.index = q.index ∧
      (Queue.next_item q).2 = q.items[q.index]?) := by
  refine ⟨fun h => by simp [Queue.next_item, h], ?_, ?_⟩
  · intro h
    simp [Queue.next_item, List.isEmpty_iff, h, hm]
  · intro h hlt
    have hmod : q.index % q.items.length = q.index := Nat.mod_eq_of_lt hlt
    simp [Queue.next_item, List.isEmpty_iff, h, hm, hmod]

/-- C1 witness: instantiation of `next_item_single_spec` at a concrete
queue. -/
theorem next_item_single_spec_witness :
    (Queue.next_item (⟨[5], 0, RepeatMode.single, false⟩ : Queue Nat)).1.index
      = 0 :=
  (((next_item_single_spec Nat ⟨[5], 0, RepeatMode.single, false⟩ rfl).2.2)
    (by decide) (by decide)).1

/-- C2: starting from a non-empty queue in `Off` mode with index 0 and
`has_advanced` false, the first `len` calls to `next_item` return the items
in order, every call after that returns `None`, and from the call that first
returns `None` on the index stays pinned at `len`. -/
theorem next_item_off_exhaustion (T : Type) (items : List T)
    (h : items ≠ []) :
    (∀ k, k < items.length →
      (Queue.iterate (⟨items, 0, RepeatMode.off, false⟩ : Queue T)
          k).next_item.2 = items[k]?) ∧
    (∀ k, items.length ≤ k →
      (Queue.iterate (⟨items, 0, RepeatMode.off, false⟩ : Queue T)
          k).next_item.2 = none) ∧
    (∀ k, items.length ≤ k →
      (Queue.iterate (⟨items, 0, RepeatMode.off, false⟩ : Queue T)
          (k + 1)).index = items.length) := by
  refine ⟨?_, ?_, ?_⟩
  · intro k hk
    rw [Queue.off_iterate_out items h k, Nat.min_eq_left (by omega)]
  · intro k hk
    rw [Queue.off_iterate_out items h k, Nat.min_eq_right hk]
    exact List.getElem?_eq_none le_rfl
  · intro k hk
    rw [Queue.off_iterate_state items h k]
    simp [Nat.min_eq_right hk]

/-- C2 witness: instantiation of `next_item_off_exhaustion` on the queue
`[7, 8]`: the third call returns `None`. -/
theorem next_item_off_exhaustion_witness :
    (Queue.iterate (⟨[7, 8], 0, RepeatMode.off, false⟩ : Queue Nat)
        2).next_item.2 = none :=
  (next_item_off_exhaustion Nat [7, 8] (by decide)).2.1 2 (by decide)

/-- C3: `skip(n)` repositions the index to
`old_index + n + (1 if has_advanced else 0)`, clamped to `len` in `Off`
mode and reduced modulo `len` otherwise (0 on an empty queue), clears
`has_advanced`, leaves the computed index within bounds, and two
consecutive skips compose additively. -/
theorem skip_spec_and_additive (T : Type) (q : Queue T) (n a b : Nat) :
    Queue.skip q n =
      { q with
          index :=
            if q.items.isEmpty then 0
            else if q.repeat_mode = RepeatMode.off then
              min (q.index + (if q.has_advanced then n + 1 else n))
                q.items.length
            else
              (q.index + (if q.has_advanced then n + 1 else n)) %
                q.items.length,
          has_advanced := false } ∧
    (Queue.skip q n).index ≤ q.items.length ∧
    Queue.skip (Queue.skip q a) b = Queue.skip q (a + b) := by
  refine ⟨Queue.skip_eq q n, ?_, ?_⟩
  · rw [Queue.skip_eq]
    exact Queue.skipTarget_le q n
  · rw [Queue.skip_eq q a, Queue.skip_eq, Queue.skip_eq q (a + b),
      Queue.skipTarget_additive q a b]

/-- C4 counterexample: on the non-empty queue `[1, 2, 3]` with index 0,
`rewind(5)` does not complete: the `usize` subtraction
`len - (n - index) = 3 - 5` underflows and the call panics. -/
theorem rewind_large_n_panics :
    Queue.rewind (⟨[1, 2, 3], 0, RepeatMode.all, false⟩ : Queue Nat) 5
      = none := by
  decide

/-- C4 (amended): on a non-empty queue whose index is within bounds,
`rewind(n)` completes successfully for every `n ≤ index + len`, regardless
of repeat mode, setting the index to `index - n` when `n ≤ index` and to
`len - (n - index)` otherwise, and clearing `has_advanced`. -/
theorem rewind_success (T : Type) (q : Queue T) (n : Nat)
    (h1 : q.items ≠ []) (h2 : q.index ≤ q.items.length)
    (h3 : n ≤ q.index + q.items.length) :
    Queue.rewind q n =
      some { q with
          index :=
            if n ≤ q.index then q.index - n
            else q.items.length - (n - q.index),
          has_advanced := false } := by
  rw [Queue.rewind_eq]
  have he : ¬q.items.isEmpty = true := by simp [List.isEmpty_iff, h1]
  by_cases hn : n ≤ q.index
  · simp [he, hn, Nat.le_trans (Nat.sub_le _ _) h2]
  · simp [he, hn, (by omega : n - q.index ≤ q.items.length)]

/-- C4 witness: instantiation of `rewind_success` at a concrete queue,
wrapping backwards past index 0. -/
theorem rewind_success_witness :
    Queue.rewind (⟨[1, 2, 3], 1, RepeatMode.off, true⟩ : Queue Nat) 2
      = some (⟨[1, 2, 3], 2, RepeatMode.off, false⟩ : Queue Nat) :=
  rewind_success Nat ⟨[1, 2, 3], 1, RepeatMode.off, true⟩ 2
    (by decide) (by decide) (by decide)

/-- C5: `jump(n)` fails exactly when `n > len`, in which case it returns the
`High` out-of-bounds error and leaves the queue unchanged; when `n ≤ len` it
succeeds, setting `index = n` and `has_advanced = false`. -/
theorem jump_spec (T : Type) (q : Queue T) (n : Nat) :
    ((Queue.jump q n).2.isSome ↔ q.items.length < n) ∧
    (q.items.length < n →
      Queue.jump q n = (q, some (OutOfBoundsError.high n q.items.length))) ∧
    (n ≤ q.items.length →
      Queue.jump q n =
        ({ q with index := n, has_advanced := false }, none)) := by
  by_cases hn : q.items.length < n
  · refine ⟨?_, fun _ => ?_, fun hle => absurd hn (by omega)⟩ <;>
      simp [Queue.jump, hn]
  · refine ⟨?_, fun hlt => absurd hlt hn,
      fun _ => Queue.jump_state q n (by omega)⟩
    simp [Queue.jump, hn]

/-- C5 witness: instantiation of `jump_spec` on the empty queue with a
too-large target. -/
theorem jump_spec_witness :
    Queue.jump (Queue.new Nat RepeatMode.off) 1 =
      (Queue.new Nat RepeatMode.off, some (OutOfBoundsError.high 1 0)) :=
  (jump_spec Nat (Queue.new Nat RepeatMode.off) 1).2.1 (by decide)

/-- C6: on a queue whose index is in bounds, `remove(i)` with `i < index`
decrements the index and `insert(i, x)` with `i ≤ index` increments it, and
both leave `current()` returning the same element as before the edit. -/
theorem edit_preserves_current (T : Type) (q : Queue T) (i : Nat) (x : T)
    (hidx : q.index < q.items.length) :
    (i < q.index →
      ∃ q2, Queue.remove q i = some q2 ∧ q2.index = q.index - 1 ∧
        Queue.current q2 = Queue.current q) ∧
    (i ≤ q.index →
      ∃ q2, Queue.insert q i x = some q2 ∧ q2.index = q.index + 1 ∧
        Queue.current q2 = Queue.current q) := by
  constructor
  · intro hi
    have hilen : i < q.items.length := by omega
    refine ⟨{ q with items := q.items.eraseIdx i, index := q.index - 1 },
      ?_, rfl, ?_⟩
    · simp [Queue.remove, hilen, hi]
    · exact getElem?_eraseIdx_of_lt q.items i q.index hi hilen
  · intro hi
    refine ⟨{ q with items := q.items.insertIdx i x, index := q.index + 1 },
      ?_, rfl, ?_⟩
    · simp [Queue.insert, (by omega : i ≤ q.items.length), hi]
    · exact getElem?_insertIdx_succ q.items i q.index x hi (by omega)

/-- C6 witness: instantiation of `edit_preserves_current`, removing index 0
below the cursor of a concrete queue. -/
theorem edit_preserves_current_witness :
    ∃ q2, Queue.remove
        (⟨[1, 6, 3, 9, 2], 2, RepeatMode.off, false⟩ : Queue Nat) 0
      = some q2 ∧ q2.index = 1 ∧
      Queue.current q2 =
        Queue.current (⟨[1, 6, 3, 9, 2], 2, RepeatMode.off, false⟩ : Queue Nat) :=
  (edit_preserves_current Nat ⟨[1, 6, 3, 9, 2], 2, RepeatMode.off, false⟩ 0 0
    (by decide)).1 (by decide)

/-- C7: the multiplier computed by `from_percent` is 0 at percentage 0 and
1 at percentage 1, equals `10^((-60 + 60 p) / 20)` strictly between, and is
strictly increasing on `[0, 1]` (in the real-arithmetic model of the
`f64` computation). -/
theorem from_percent_spec :
    (AtomicVolume.from_percent 0).multiplier = 0 ∧
    (AtomicVolume.from_percent 1).multiplier = 1 ∧
    (∀ p : ℝ, 0 < p → p < 1 →
      (AtomicVolume.from_percent p).multiplier =
        (10 : ℝ) ^ ((-60 + 60 * p) / 20)) ∧
    (∀ p q : ℝ, 0 ≤ p → p < q → q ≤ 1 →
      (AtomicVolume.from_percent p).multiplier <
        (AtomicVolume.from_percent q).multiplier) := by
  have heval : ∀ p : ℝ, 0 < p → p < 1 →
      (AtomicVolume.from_percent p).multiplier =
        (10 : ℝ) ^ ((-60 + 60 * p) / 20) := by
    intro p h0 h1
    unfold AtomicVolume.from_percent
    rw [if_neg (by push_neg; exact ⟨ne_of_gt h0, ne_of_lt h1⟩)]
    norm_num
  refine ⟨by simp [AtomicVolume.from_percent],
    by simp [AtomicVolume.from_percent], heval, ?_⟩
  intro p q h0 hpq hq1
  by_cases hp0 : p = 0
  · subst hp0
    have hm0 : (AtomicVolume.from_percent 0).multiplier = 0 := by
      simp [AtomicVolume.from_percent]
    rw [hm0]
    by_cases hq : q = 1
    · subst hq
      simp [AtomicVolume.from_percent]
    · rw [heval q hpq (lt_of_le_of_ne hq1 hq)]
      exact Real.rpow_pos_of_pos (by norm_num) _
  · have hp : 0 < p := lt_of_le_of_ne h0 (Ne.symm hp0)
    have hp1 : p < 1 := lt_of_lt_of_le hpq hq1
    rw [heval p hp hp1]
    by_cases hq : q = 1
    · subst hq
      have hm1 : (AtomicVolume.from_percent 1).multiplier = 1 := by
        simp [AtomicVolume.from_percent]
      rw [hm1, show (1 : ℝ) = (10 : ℝ) ^ (0 : ℝ) from (Real.rpow_zero 10).symm]
      exact (Real.rpow_lt_rpow_left_iff (by norm_num)).mpr (by linarith)
    · rw [heval q (by linarith) (lt_of_le_of_ne hq1 hq)]
      exact (Real.rpow_lt_rpow_left_iff (by norm_num)).mpr (by linarith)

/-- C7 witness: `from_percent_spec` applied to the endpoints 0 and 1. -/
theorem from_percent_spec_witness :
    (AtomicVolume.from_percent 0).multiplier <
      (AtomicVolume.from_percent 1).multiplier :=
  from_percent_spec.2.2.2 0 1 le_rfl one_pos le_rfl

/-- C8 counterexample: a player that has a current song but was never
started (no command sender) returns `Ok(false)` from `seek_duration`
without sending `Seek(d)` anywhere, so the claim that a valid seek always
sends `Seek(d)` on the command channel fails. -/
theorem seek_duration_unstarted_sends_nothing :
    (Player.seek_duration
        ⟨⟨[⟨1, "", "", 100⟩], 0, RepeatMode.all, false⟩, false⟩ 50).2.2
      = [] ∧
    (Player.seek_duration
        ⟨⟨[⟨1, "", "", 100⟩], 0, RepeatMode.all, false⟩, false⟩ 50).2.1
      = Except.ok false ∧
    (Player.current
        ⟨⟨[⟨1, "", "", 100⟩], 0, RepeatMode.all, false⟩, false⟩).isSome
      = true :=
  ⟨rfl, rfl, rfl⟩

/-- C8 (amended): `seek_duration(d)` returns `NoCurrentSong` when the queue
has no current song, `OutOfRange` when `d` exceeds the current duration, and
otherwise sends `Seek(d)` on the command channel when the player has been
started (returning `Ok(false)` and sending nothing when there is no
channel); the player state is never changed. -/
theorem seek_duration_spec (p : Player) (d : Nat) :
    (Player.seek_duration p d).1 = p ∧
    (Player.current p = none →
      Player.seek_duration p d =
        (p, Except.error SeekError.noCurrentSong, [])) ∧
    (∀ s, Player.current p = some s → s.duration < d →
      Player.seek_duration p d =
        (p, Except.error (SeekError.outOfRange d s.duration), [])) ∧
    (∀ s, Player.current p = some s → d ≤ s.duration →
      Player.seek_duration p d =
        (p, Except.ok p.sender,
          if p.sender then [PlayerMessage.seek d] else [])) := by
  refine ⟨?_, ?_, ?_, ?_⟩
  · cases hc : Player.current p with
    | none => simp [Player.seek_duration, hc]
    | some s =>
      by_cases hd : s.duration < d <;>
        simp [Player.seek_duration, Player.send_message, hc, hd]
  · intro hc
    simp [Player.seek_duration, hc]
  · intro s hc hd
    simp [Player.seek_duration, hc, hd]
  · intro s hc hd
    have hnd : ¬(d > s.duration) := by omega
    simp only [Player.seek_duration, Player.send_message, hc, hnd, if_false]
    cases hs : p.sender <;> simp [hs]

/-- C8 witness: instantiation of `seek_duration_spec` on a player with an
empty queue. -/
theorem seek_duration_spec_witness :
    Player.seek_duration ⟨⟨[], 0, RepeatMode.all, false⟩, false⟩ 5 =
      (⟨⟨[], 0, RepeatMode.all, false⟩, false⟩,
        Except.error SeekError.noCurrentSong, []) :=
  (seek_duration_spec ⟨⟨[], 0, RepeatMode.all, false⟩, false⟩ 5).2.1
    (by decide)

/-- C9 (code bug evidence): in the bypass branch of the callback (equal
input and output sample rates), when the ring and the deque are both empty,
one iteration of the refill loop is the identity, so the loop guard
`sample_deque.len() < data.len()` stays true forever and the callback never
reaches `write_audio` — the buffer is never filled and the callback never
returns.  By contrast `write_audio` itself, run with an empty deque, fills
the whole buffer with the device silence value, which is what the claim
(and the specification) describe. -/
theorem bypass_underflow_stalls (dataLen n chunk : Nat) (T : Type)
    (conv : ℚ → T) (eqm : T) (vol : ℚ) (data : List T) :
    ((refillStepBypass dataLen)^[n] ⟨[], [], [], []⟩ =
      (⟨[], [], [], []⟩ : CallbackBuf)) ∧
    write_audio conv eqm chunk vol data [] =
      (List.replicate data.length eqm, []) := by
  constructor
  · induction n with
    | zero => rfl
    | succ n ih =>
      rw [Function.iterate_succ_apply', ih]
      simp [refillStepBypass]
  · exact writeAudioGo_nil conv eqm (chunk - 1) vol data

/-- C10: every queue operation that returns normally preserves the invariant
`index ≤ items.len()`, and `current` and `next_item` access the item vector
only through the checked `get` at the (possibly updated) index. -/
theorem queue_invariant (T : Type) (rm : RepeatMode) (q : Queue T) (x : T)
    (xs : List T) (n i : Nat) :
    (Queue.new T rm).index ≤ (Queue.new T rm).items.length ∧
    (q.index ≤ q.items.length →
      (Queue.next_item q).1.index ≤ (Queue.next_item q).1.items.length) ∧
    (q.index ≤ q.items.length →
      (Queue.push q x).index ≤ (Queue.push q x).items.length) ∧
    (Queue.clear q).index ≤ (Queue.clear q).items.length ∧
    (q.index ≤ q.items.length →
      (Queue.extend q xs).index ≤ (Queue.extend q xs).items.length) ∧
    (n ≤ q.items.length →
      (Queue.jump q n).1.index ≤ (Queue.jump q n).1.items.length) ∧
    (Queue.skip q n).index ≤ (Queue.skip q n).items.length ∧
    (∀ q2, Queue.rewind q n = some q2 → q2.index ≤ q2.items.length) ∧
    (q.index ≤ q.items.length → ∀ q2, Queue.remove q i = some q2 →
      q2.index ≤ q2.items.length) ∧
    (q.index ≤ q.items.length → ∀ q2, Queue.insert q i x = some q2 →
      q2.index ≤ q2.items.length) ∧
    Queue.current q = q.items[q.index]? ∧
    (Queue.next_item q).2 =
      (Queue.next_item q).1.items[(Queue.next_item q).1.index]? := by
  refine ⟨Nat.le_refl 0, Queue.next_item_index_le q, ?_, Nat.le_refl 0, ?_,
    ?_, ?_, Queue.rewind_index_le q n, ?_, ?_, rfl, Queue.next_item_out q⟩
  · intro h
    simp [Queue.push]
    omega
  · intro h
    simp [Queue.extend]
    omega
  · intro h
    rw [Queue.jump_state q n h]
    exact h
  · rw [Queue.skip_eq]
    exact Queue.skipTarget_le q n
  · intro h q2
    exact Queue.remove_index_le q i h q2
  · intro h q2
    exact Queue.insert_index_le q i x h q2

/-- C10 witness: instantiation of `queue_invariant` at a concrete queue,
using the `next_item` conjunct. -/
theorem queue_invariant_witness :
    (Queue.next_item (⟨[4, 5], 1, RepeatMode.all, true⟩ : Queue Nat)).1.index
      ≤ (Queue.next_item
          (⟨[4, 5], 1, RepeatMode.all, true⟩ : Queue Nat)).1.items.length :=
  (queue_invariant Nat RepeatMode.all ⟨[4, 5], 1, RepeatMode.all, true⟩
    0 [] 0 0).2.1 (by decide)
